import Mathlib

/-!
Verification of the price-caching client and the randomized-refresh
scheduling model of the coinops dashboard server.

The repository ships the test suites and callers of the core
(`internal/coingecko` and `internal/math`), but the implementation files
`internal/coingecko/service.go` and `internal/math/poisson.go` themselves
are not among the sources.  The definitions below are therefore modelled
from the specification (and the shapes pinned down by the shipped tests
and callers); each such definition carries a doc comment saying so.

Modelling conventions:
- Go `float64` price/change values are modelled as rationals (`ℚ`) on the
  cache side, where they are only stored and copied, and as reals (`ℝ`)
  on the sampling side, where logarithms are taken.
- Wall-clock instants are integers (seconds); the TTL is the integer 30.
- The upstream fetch is an oracle argument: `some resp` is a successful
  fetch delivering the decoded body `resp`, `none` is any fetch failure
  (network error, non-2xx status, malformed body).
- The shared random source is an explicit stream of uniform draws.
-/

/-- Coin display configuration, from `internal/config` (`CoinConfig` holds
cryptocurrency display settings: `id` and `display_name`). -/
structure CoinConfig where
  ID : String
  DisplayName : String
deriving DecidableEq

/-- Modelled from the spec: `internal/coingecko/service.go` is absent from
the sources; a `Coin` is one tracked asset with stable lowercase `id`,
configured `display_name`, latest price and 24-hour change. -/
structure Coin where
  ID : String
  DisplayName : String
  Price : ℚ
  Change24h : ℚ
deriving DecidableEq

/-- Modelled from the spec: the per-coin record of the upstream quote
response, carrying the `usd` price and the `usd_24h_change` fields. -/
structure PriceData where
  USD : ℚ
  USD24hChange : ℚ
deriving DecidableEq

/-- Modelled from the spec: the decoded upstream response, a JSON object
keyed by coin id; modelled as an association list in key order. -/
abbrev CoinGeckoResponse := List (String × PriceData)

/-- Modelled from the spec: the built-in static fallback table of
well-known coin ids mapped to plausible (price, 24h-change) pairs, used
only on a cold start when the upstream fetch fails.  The shipped tests pin
that `bitcoin` and `dogecoin` are present; the numeric values are
representative. -/
def mockPrices : List (String × ℚ × ℚ) :=
  [("bitcoin", (50000, 2.5)),
   ("ethereum", (3000, -1.2)),
   ("dogecoin", (0.08, 5.3)),
   ("litecoin", (90, 0.7)),
   ("cardano", (0.45, -0.9))]

/-- Modelled from the spec: the `coingecko.Service` state — the configured
coin list, the cached snapshot, the time of the last successful fetch and
the fixed 30-second TTL. -/
structure Service where
  coins : List CoinConfig
  cache : List Coin
  cacheTime : ℤ
  cacheTTL : ℤ
deriving DecidableEq

/-- Modelled from the spec: `NewService` builds a service over the
configured coins with an empty cache and the fixed 30-second TTL. -/
def NewService (coins : List CoinConfig) : Service :=
  Service.mk coins [] 0 30

/-- Modelled from the spec: the fallback policy invoked when the upstream
fetch fails.  If the snapshot is non-empty, serve the stale snapshot;
else synthesize entries from `mockPrices` for exactly the configured coin
ids present in that table, using the configured display name but the
table's price and change; configured coins absent from the table are
omitted. -/
def Service.fallbackPrices (s : Service) : List Coin :=
  if s.cache ≠ [] then s.cache
  else s.coins.filterMap (fun c =>
    (mockPrices.lookup c.ID).map (fun pc => Coin.mk c.ID c.DisplayName pc.1 pc.2))

/-- Modelled from the spec: the merge step of a successful fetch — for
each configured coin, take the response's price/change when present,
else retain the previously cached entry, else omit. -/
def mergeResponse (coins : List CoinConfig) (cache : List Coin) (resp : CoinGeckoResponse) : List Coin :=
  coins.filterMap (fun c =>
    match resp.lookup c.ID with
    | some pd => some (Coin.mk c.ID c.DisplayName pd.USD pd.USD24hChange)
    | none => cache.find? (fun e => e.ID == c.ID))

/-- Modelled from the spec: `Service.GetPrices`.  If `now - cacheTime ≤
cacheTTL` and the snapshot is non-empty, return the snapshot with no
upstream I/O.  Otherwise attempt exactly one fetch (the oracle argument):
on success merge-update the snapshot and advance `cacheTime`; on failure
invoke the fallback policy and leave the state unchanged (the failed-fetch
TTL-reset open question of the spec is resolved as: do not advance).
Fetch failure is never surfaced as an error. -/
def Service.GetPrices (s : Service) (now : ℤ) (fetch : Option CoinGeckoResponse) : List Coin × Service :=
  if now - s.cacheTime ≤ s.cacheTTL ∧ s.cache ≠ [] then (s.cache, s)
  else
    match fetch with
    | some resp =>
        (mergeResponse s.coins s.cache resp,
         Service.mk s.coins (mergeResponse s.coins s.cache resp) now s.cacheTTL)
    | none => (s.fallbackPrices, s)

/-- Modelled from the spec: the caller-visible error taxonomy of the
coin lookup layer — only `NotFound` escapes to callers. -/
inductive CoinError where
  | notFound
deriving DecidableEq

/-- Modelled from the spec: the sentinel `ErrCoinNotFound` (Go message
"coin not found"). -/
def ErrCoinNotFound : CoinError := CoinError.notFound

/-- Modelled from the spec: `Service.GetCoin` calls `GetPrices`
internally, then returns the entry matching the id exactly, or a
`NotFound` error when the id is absent from the resulting snapshot. -/
def Service.GetCoin (s : Service) (now : ℤ) (fetch : Option CoinGeckoResponse) (id : String) : Except CoinError Coin × Service :=
  match ((s.GetPrices now fetch).1.find? (fun c => c.ID == id)) with
  | some c => (Except.ok c, (s.GetPrices now fetch).2)
  | none => (Except.error ErrCoinNotFound, (s.GetPrices now fetch).2)

/-- Case folding of a character list, modelling Go `strings.ToLower` on
the ASCII identifiers and labels this core uses. -/
def foldCase (cs : List Char) : List Char := cs.map Char.toLower

/-- Substring containment on character lists, modelling Go
`strings.Contains`: the needle occurs contiguously in the haystack. -/
def containsSub : List Char → List Char → Bool
  | [], needle => needle.isEmpty
  | c :: t, needle => needle.isPrefixOf (c :: t) || containsSub t needle

/-- Modelled from the spec: the match predicate of `SearchCoins` — the
case-folded query is a substring of the case-folded id or of the
case-folded display name. -/
def matchesQuery (q : List Char) (c : Coin) : Bool :=
  containsSub (foldCase c.ID.data) (foldCase q) ||
    containsSub (foldCase c.DisplayName.data) (foldCase q)

/-- Modelled from the spec: `Service.SearchCoins` calls `GetPrices`
internally; an empty query returns all entries, otherwise the entries
whose id or display name contains the case-folded query, order
preserved. -/
def Service.SearchCoins (s : Service) (now : ℤ) (fetch : Option CoinGeckoResponse) (query : String) : List Coin × Service :=
  if query.data = [] then s.GetPrices now fetch
  else ((s.GetPrices now fetch).1.filter (matchesQuery query.data),
        (s.GetPrices now fetch).2)

/-- A JSON value, the fragment needed to model decoding of the upstream
quote body by `encoding/json`. -/
inductive Json where
  | num (q : ℚ)
  | str (s : String)
  | boolean (b : Bool)
  | null
  | arr (elems : List Json)
  | obj (fields : List (String × Json))

/-- Field lookup in a JSON object; `none` on non-objects and missing
keys. -/
def Json.getField : Json → String → Option Json
  | Json.obj fields, k => fields.lookup k
  | _, _ => none

/-- Modelled from the spec: decoding one per-coin record of the upstream
response — the `usd` field becomes the price and the `usd_24h_change`
field becomes the 24-hour change; anything else is a decode failure. -/
def decodePriceData (j : Json) : Option PriceData :=
  match j.getField "usd", j.getField "usd_24h_change" with
  | some (Json.num p), some (Json.num c) => some (PriceData.mk p c)
  | _, _ => none

/-- Modelled from the spec: decoding the upstream response body — a JSON
object keyed by coin id whose every value decodes as a per-coin record. -/
def decodeCoinGeckoResponse (j : Json) : Option CoinGeckoResponse :=
  match j with
  | Json.obj fields =>
      fields.mapM (fun kv => (decodePriceData kv.2).map (fun pd => (kv.1, pd)))
  | _ => none

/-- Truncation of a real to an integer toward zero, modelling Go's `int`
conversion of a `float64`. -/
noncomputable def rtrunc (x : ℝ) : ℤ := if 0 ≤ x then ⌊x⌋ else ⌈x⌉

/-- Clamp a raw sample to the closed interval from `lo` to `hi`, then
truncate to an integer. -/
noncomputable def clampTrunc (raw lo hi : ℝ) : ℤ := rtrunc (min (max raw lo) hi)

/-- Modelled from the spec: `internal/math/poisson.go` is absent from the
sources.  `GetPoissonDelay` draws `u` uniformly from the half-open unit
interval (here an explicit argument standing for the draw taken from the
shared random source), computes `raw = -ln(u) * targetMean`, clamps `raw`
to the closed interval from `0.1 * targetMean` to `10 * targetMean` and
truncates to an integer; the draw `u = 0` is treated as the maximum
bound, per the spec's numeric-semantics requirement. -/
noncomputable def GetPoissonDelay (targetMean u : ℝ) : ℤ :=
  clampTrunc (if u = 0 then 10 * targetMean else -Real.log u * targetMean)
    (0.1 * targetMean) (10 * targetMean)

/-- Modelled from the spec: a run of the delay generator against a given
state of the shared random source, modelled as the stream of uniform
draws it will produce; position `n` of the run consumes draw `n`. -/
noncomputable def delaySeq (source : ℕ → ℝ) (targetMean : ℝ) (n : ℕ) : ℤ :=
  GetPoissonDelay targetMean (source n)

/-- The stream of draws produced by one seeding of the shared random
source (a source state whose every draw is 0). -/
noncomputable def seedStreamA : ℕ → ℝ := fun _ => 0

/-- The stream of draws produced by a different seeding of the shared
random source (a source state whose every draw is 19/20). -/
noncomputable def seedStreamB : ℕ → ℝ := fun _ => 19 / 20

/-- Modelled from the spec: a heap of coin slices, making Go slice
aliasing explicit so that the deep-copy discipline of `GetPrices` is
observable.  A slice value is an address into `bufs`; `cacheAddr` is the
service's own backing buffer. -/
structure CacheWorld where
  bufs : List (List Coin)
  cacheAddr : ℕ
deriving DecidableEq

/-- Contents of the buffer at an address (empty when out of range). -/
def CacheWorld.read (w : CacheWorld) (a : ℕ) : List Coin :=
  (w.bufs[a]?).getD []

/-- Modelled from the spec: the slice-level behavior of a cache-hit
`GetPrices` call — allocate a fresh buffer holding a copy of the cache
snapshot and hand the caller a reference to that fresh buffer, never to
the cache's own backing buffer. -/
def CacheWorld.getPricesCopy (w : CacheWorld) : ℕ × CacheWorld :=
  (w.bufs.length, CacheWorld.mk (w.bufs ++ [w.read w.cacheAddr]) w.cacheAddr)

/-- A caller mutating the slice it was handed: overwrite the buffer at
address `a` with arbitrary new contents. -/
def CacheWorld.setBuf (w : CacheWorld) (a : ℕ) (l : List Coin) : CacheWorld :=
  CacheWorld.mk (w.bufs.set a l) w.cacheAddr

/-- A warm-cache service fixture: one configured coin, a non-empty
snapshot and a fresh `cacheTime`, as in the shipped cache-hit tests. -/
def svcWarm : Service :=
  Service.mk [CoinConfig.mk "bitcoin" "Bitcoin"]
    [Coin.mk "bitcoin" "Bitcoin" 99999.99 5] 0 30

/-- A cold-start service fixture: two configured coins (one present in
the fallback table under a custom display name, one unknown to it) and an
empty snapshot, as in the shipped fallback tests. -/
def svcCold : Service :=
  Service.mk [CoinConfig.mk "bitcoin" "Custom Bitcoin Name",
              CoinConfig.mk "unknowncoin" "Unknown"] [] 0 30

/-- A one-buffer slice world fixture for the copy-discipline theorem. -/
def w0 : CacheWorld :=
  CacheWorld.mk [[Coin.mk "bitcoin" "Bitcoin" 50000 2]] 0

/-- The world after the first `getPricesCopy` call on `w0`. -/
def w1c : CacheWorld := (w0.getPricesCopy).2

/-- The world after the second `getPricesCopy` call on `w0`. -/
def w2c : CacheWorld := (w1c.getPricesCopy).2

/-- C1: On upstream fetch failure, `GetPrices` never returns an error
(the model's return type carries no error channel on this path, matching
the spec's always-succeeds contract): when the cached snapshot is
non-empty the call returns the snapshot unchanged and leaves the state
unchanged; on a cold start with an empty cache the returned entries are
exactly those for configured coin ids present in the built-in fallback
table, each carrying the configured display name with the table's price
and change, configured coins absent from the table being omitted. -/
theorem getPrices_upstreamFailure (s : Service) (now : ℤ) :
    (s.cache ≠ [] → s.GetPrices now none = (s.cache, s)) ∧
    (s.cache = [] → ∀ e : Coin,
      e ∈ (s.GetPrices now none).1 ↔
        ∃ c ∈ s.coins, ∃ p ch : ℚ,
          mockPrices.lookup c.ID = some (p, ch) ∧
          e = Coin.mk c.ID c.DisplayName p ch) := by
  constructor
  · intro h
    unfold Service.GetPrices
    split
    · rfl
    · show (s.fallbackPrices, s) = _
      unfold Service.fallbackPrices
      rw [if_pos h]
  · intro h e
    unfold Service.GetPrices
    rw [if_neg (by simp [h])]
    show e ∈ s.fallbackPrices ↔ _
    unfold Service.fallbackPrices
    rw [if_neg (by simp [h]), List.mem_filterMap]
    constructor
    · rintro ⟨c, hc, hfc⟩
      rw [Option.map_eq_some'] at hfc
      obtain ⟨pc, hpc, he⟩ := hfc
      exact ⟨c, hc, pc.1, pc.2, by simpa using hpc, he.symm⟩
    · rintro ⟨c, hc, p, ch, hl, he⟩
      exact ⟨c, hc, by rw [hl, he]; rfl⟩

/-- Witness for C1: on the cold-start fixture, the fallback entry for
`bitcoin` carries the configured custom display name with the table's
price and change. -/
theorem getPrices_upstreamFailure_witness :
    svcCold.cache = [] ∧
    (Coin.mk "bitcoin" "Custom Bitcoin Name" 50000 2.5 ∈ (svcCold.GetPrices 0 none).1 ↔
      ∃ c ∈ svcCold.coins, ∃ p ch : ℚ,
        mockPrices.lookup c.ID = some (p, ch) ∧
        Coin.mk "bitcoin" "Custom Bitcoin Name" 50000 2.5 = Coin.mk c.ID c.DisplayName p ch) :=
  ⟨rfl, (getPrices_upstreamFailure svcCold 0).2 rfl _⟩

/-- C2: with the 30-second TTL not yet elapsed and a non-empty snapshot,
`GetPrices` returns the cached values and leaves the state unchanged
whatever the upstream would have answered (no upstream fetch is
performed), and a second back-to-back call within the TTL returns
bit-identical values. -/
theorem getPrices_cacheHit (s : Service) (now : ℤ) (h0 : s.cacheTTL = 30)
    (h1 : now - s.cacheTime ≤ 30) (h2 : s.cache ≠ []) :
    (∀ fetch, s.GetPrices now fetch = (s.cache, s)) ∧
    (∀ f1 f2, ((s.GetPrices now f1).2.GetPrices now f2).1 = (s.GetPrices now f1).1) := by
  have key : ∀ fetch, s.GetPrices now fetch = (s.cache, s) := by
    intro fetch
    unfold Service.GetPrices
    rw [if_pos ⟨by rw [h0]; exact h1, h2⟩]
  refine ⟨key, ?_⟩
  intro f1 f2
  rw [key f1]
  show (s.GetPrices now f2).1 = s.cache
  rw [key f2]

/-- Witness for C2: on the warm fixture at time 0, a call with a failing
upstream returns the cached snapshot and leaves the state unchanged. -/
theorem getPrices_cacheHit_witness :
    svcWarm.cacheTTL = 30 ∧ (0 : ℤ) - svcWarm.cacheTime ≤ 30 ∧ svcWarm.cache ≠ [] ∧
    svcWarm.GetPrices 0 none = (svcWarm.cache, svcWarm) :=
  ⟨rfl, by decide, by decide,
    (getPrices_cacheHit svcWarm 0 rfl (by decide) (by decide)).1 none⟩

/-- C6: `GetCoin` returns the snapshot entry whose id equals the
argument exactly when such an entry exists in the snapshot produced by
the internal `GetPrices` call, and returns the `NotFound` error when the
id is absent, for every cache state, time and fetch outcome. -/
theorem getCoin_spec (s : Service) (now : ℤ) (fetch : Option CoinGeckoResponse) (id : String) :
    ((∃ c ∈ (s.GetPrices now fetch).1, c.ID = id) →
      ∃ c, (s.GetCoin now fetch id).1 = Except.ok c ∧ c.ID = id ∧
        c ∈ (s.GetPrices now fetch).1) ∧
    ((∀ c ∈ (s.GetPrices now fetch).1, c.ID ≠ id) →
      (s.GetCoin now fetch id).1 = Except.error ErrCoinNotFound) := by
  cases hf : (s.GetPrices now fetch).1.find? (fun c => c.ID == id) with
  | some c =>
    constructor
    · intro _
      refine ⟨c, ?_, ?_, List.mem_of_find?_eq_some hf⟩
      · simp [Service.GetCoin, hf]
      · have := List.find?_some hf
        simpa using this
    · intro hall
      have h1 := List.find?_some hf
      have h2 := List.mem_of_find?_eq_some hf
      exact absurd (by simpa using h1) (hall c h2)
  | none =>
    constructor
    · rintro ⟨c, hc, hcid⟩
      rw [List.find?_eq_none] at hf
      have := hf c hc
      simp [hcid] at this
    · intro _
      simp [Service.GetCoin, hf]

/-- Witness for C6: on the warm fixture, looking up the absent id
`dogecoin` yields the `NotFound` error. -/
theorem getCoin_spec_witness :
    (∀ c ∈ (svcWarm.GetPrices 0 none).1, c.ID ≠ "dogecoin") ∧
    (svcWarm.GetCoin 0 none "dogecoin").1 = Except.error ErrCoinNotFound :=
  ⟨by decide, (getCoin_spec svcWarm 0 none "dogecoin").2 (by decide)⟩

/-- C5: `SearchCoins` returns exactly the matching coins of the current
`GetPrices` snapshot — the whole snapshot on an empty query, otherwise an
order-preserving, duplication-free selection (a sublist) of the snapshot
containing precisely the entries whose case-folded id or display name
contains the case-folded query; and any two queries with the same case
folding (such as BITCOIN, bitcoin and BiTcOiN) give identical results. -/
theorem searchCoins_spec (s : Service) (now : ℤ) (fetch : Option CoinGeckoResponse) (query : String) :
    (query.data = [] → s.SearchCoins now fetch query = s.GetPrices now fetch) ∧
    ((s.SearchCoins now fetch query).1.Sublist (s.GetPrices now fetch).1) ∧
    (∀ e : Coin, e ∈ (s.SearchCoins now fetch query).1 ↔
      e ∈ (s.GetPrices now fetch).1 ∧
        (query.data = [] ∨ matchesQuery query.data e = true)) ∧
    (∀ q2 : String, foldCase query.data = foldCase q2.data →
      s.SearchCoins now fetch query = s.SearchCoins now fetch q2) := by
  refine ⟨?_, ?_, ?_, ?_⟩
  · intro h
    unfold Service.SearchCoins
    rw [if_pos h]
  · unfold Service.SearchCoins
    split
    · exact List.Sublist.refl _
    · exact List.filter_sublist _
  · intro e
    unfold Service.SearchCoins
    by_cases h : query.data = []
    · rw [if_pos h]
      simp [h]
    · rw [if_neg h]
      simp [List.mem_filter, h]
  · intro q2 hq
    unfold Service.SearchCoins
    have hfun : matchesQuery query.data = matchesQuery q2.data := by
      funext e
      unfold matchesQuery
      rw [hq]
    by_cases h : query.data = []
    · have h2 : q2.data = [] := by
        rw [h] at hq
        unfold foldCase at hq
        exact List.map_eq_nil_iff.mp hq.symm
      rw [if_pos h, if_pos h2]
    · have h2 : ¬ q2.data = [] := by
        intro hq2
        apply h
        rw [hq2] at hq
        unfold foldCase at hq
        exact List.map_eq_nil_iff.mp hq
      rw [if_neg h, if_neg h2, hfun]

/-- Witness for C5: on the warm fixture, the queries BITCOIN and bitcoin
return identical results. -/
theorem searchCoins_spec_witness :
    foldCase ("BITCOIN" : String).data = foldCase ("bitcoin" : String).data ∧
    svcWarm.SearchCoins 0 none "BITCOIN" = svcWarm.SearchCoins 0 none "bitcoin" :=
  ⟨by decide, (searchCoins_spec svcWarm 0 none "BITCOIN").2.2.2 "bitcoin" (by decide)⟩

/-- C4: the sequences handed out by `GetPrices` are independent copies of
the cache snapshot — after two calls, overwriting the buffer the first
call returned changes neither the cache's own buffer nor the buffer the
second call returned, and a further `GetPrices` call still returns the
original snapshot contents. -/
theorem getPrices_returnsCopy (w w1 w2 : CacheWorld) (a1 a2 : ℕ) (l : List Coin)
    (hw : w.cacheAddr < w.bufs.length)
    (h1 : w.getPricesCopy = (a1, w1)) (h2 : w1.getPricesCopy = (a2, w2)) :
    (w2.setBuf a1 l).read (w2.setBuf a1 l).cacheAddr = w.read w.cacheAddr ∧
    (w2.setBuf a1 l).read a2 = w.read w.cacheAddr ∧
    ((w2.setBuf a1 l).getPricesCopy).2.read ((w2.setBuf a1 l).getPricesCopy).1 =
      w.read w.cacheAddr := by
  unfold CacheWorld.getPricesCopy at h1 h2
  have ha1 : a1 = w.bufs.length := (congrArg Prod.fst h1).symm
  have hw1 : w1 = CacheWorld.mk (w.bufs ++ [w.read w.cacheAddr]) w.cacheAddr :=
    (congrArg Prod.snd h1).symm
  subst ha1
  subst hw1
  have hcopy : (CacheWorld.mk (w.bufs ++ [w.read w.cacheAddr]) w.cacheAddr).read w.cacheAddr
      = w.read w.cacheAddr := by
    simp only [CacheWorld.read]
    rw [List.getElem?_append_left hw]
  have ha2 : a2 = w.bufs.length + 1 := by
    have h := (congrArg Prod.fst h2).symm
    simpa using h
  have hw2 : w2 = CacheWorld.mk ((w.bufs ++ [w.read w.cacheAddr]) ++ [w.read w.cacheAddr])
      w.cacheAddr := by
    have h := (congrArg Prod.snd h2).symm
    dsimp only at h
    rw [h, hcopy]
  subst ha2
  subst hw2
  have hne : w.bufs.length ≠ w.cacheAddr := ne_of_gt hw
  have hlt1 : w.cacheAddr < (w.bufs ++ [w.read w.cacheAddr]).length := by
    rw [List.length_append]
    omega
  have hlt1u : w.cacheAddr < (w.bufs ++ [(w.bufs[w.cacheAddr]?).getD []]).length := by
    simp only [List.length_append, List.length_singleton]
    omega
  refine ⟨?_, ?_, ?_⟩
  · simp only [CacheWorld.setBuf, CacheWorld.read]
    rw [List.getElem?_set_ne hne, List.getElem?_append_left hlt1u,
      List.getElem?_append_left hw]
  · simp only [CacheWorld.setBuf, CacheWorld.read]
    have hne2 : w.bufs.length ≠ w.bufs.length + 1 := by omega
    have hlen : w.bufs.length + 1 = (w.bufs ++ [(w.bufs[w.cacheAddr]?).getD []]).length := by
      simp only [List.length_append, List.length_singleton]
    rw [List.getElem?_set_ne hne2, hlen, List.getElem?_concat_length]
    simp
  · simp only [CacheWorld.getPricesCopy, CacheWorld.setBuf, CacheWorld.read]
    rw [List.getElem?_concat_length]
    simp only [Option.getD_some]
    rw [List.getElem?_set_ne hne, List.getElem?_append_left hlt1u,
      List.getElem?_append_left hw]

/-- Witness for C4: on the one-buffer fixture, overwriting the first
returned buffer with the empty list leaves the cache's own buffer
unchanged. -/
theorem getPrices_returnsCopy_witness :
    w0.cacheAddr < w0.bufs.length ∧
    (w2c.setBuf 1 []).read (w2c.setBuf 1 []).cacheAddr = w0.read w0.cacheAddr :=
  ⟨by decide,
    (getPrices_returnsCopy w0 w1c w2c 1 2 [] (by decide) (by decide) (by decide)).1⟩

/-- Truncation toward zero agrees with the floor on non-negative reals. -/
theorem rtrunc_of_nonneg (x : ℝ) (h : 0 ≤ x) : rtrunc x = ⌊x⌋ := if_pos h

/-- Truncation toward zero is the identity on integers. -/
theorem rtrunc_intCast (n : ℤ) : rtrunc (n : ℝ) = n := by
  unfold rtrunc
  split
  · exact Int.floor_intCast n
  · exact Int.ceil_intCast n

/-- The clamp-then-truncate step lands between the truncated bounds
whenever the bounds are ordered and non-negative, whatever the raw
sample was. -/
theorem clampTrunc_bounds (raw lo hi : ℝ) (h0 : 0 ≤ lo) (h1 : lo ≤ hi) :
    rtrunc lo ≤ clampTrunc raw lo hi ∧ clampTrunc raw lo hi ≤ rtrunc hi := by
  have hc1 : lo ≤ min (max raw lo) hi := le_min (le_max_right raw lo) h1
  have hc2 : min (max raw lo) hi ≤ hi := min_le_right _ _
  unfold clampTrunc
  rw [rtrunc_of_nonneg lo h0, rtrunc_of_nonneg hi (h0.trans h1),
    rtrunc_of_nonneg _ (h0.trans hc1)]
  exact ⟨Int.floor_le_floor hc1, Int.floor_le_floor hc2⟩

/-- The zero draw always yields the truncated maximum bound. -/
theorem gp_zeroDraw_eq (targetMean : ℝ) (h : 0 ≤ targetMean) :
    GetPoissonDelay targetMean 0 = rtrunc (10 * targetMean) := by
  unfold GetPoissonDelay clampTrunc
  rw [if_pos rfl]
  have h1 : (0.1 : ℝ) * targetMean ≤ 10 * targetMean := by nlinarith
  rw [max_eq_left h1, min_self]

/-- C3: for every positive target mean and every value drawn from the
uniform random source, the delay lies within the integer-truncated clamp
bounds: from the truncation of a tenth of the mean up to the truncation
of ten times the mean. -/
theorem getPoissonDelay_bounds (targetMean u : ℝ) (h : 0 < targetMean) :
    rtrunc (0.1 * targetMean) ≤ GetPoissonDelay targetMean u ∧
    GetPoissonDelay targetMean u ≤ rtrunc (10 * targetMean) := by
  have h0 : (0:ℝ) ≤ 0.1 * targetMean := by nlinarith
  have h1 : (0.1:ℝ) * targetMean ≤ 10 * targetMean := by nlinarith
  exact clampTrunc_bounds _ _ _ h0 h1

/-- Witness for C3: at target mean 1000 and draw 0 the bounds hold. -/
theorem getPoissonDelay_bounds_witness :
    (0:ℝ) < 1000 ∧
    (rtrunc (0.1 * 1000) ≤ GetPoissonDelay 1000 0 ∧
      GetPoissonDelay 1000 0 ≤ rtrunc (10 * 1000)) :=
  ⟨by norm_num, getPoissonDelay_bounds 1000 0 (by norm_num)⟩

/-- C7: a zero target mean always yields the delay 0, whatever value the
uniform random source draws — both clamp bounds collapse to zero. -/
theorem getPoissonDelay_zeroMean (u : ℝ) : GetPoissonDelay 0 u = 0 := by
  unfold GetPoissonDelay clampTrunc rtrunc
  simp

/-- Witness for C7: the delay at zero mean and draw one half is 0. -/
theorem getPoissonDelay_zeroMean_witness : GetPoissonDelay 0 (1/2) = 0 :=
  getPoissonDelay_zeroMean (1/2)

/-- C8: the `u = 0` edge of the uniform draw is total and yields the
truncated maximum clamp bound — the draw that would make the raw
exponential sample infinite is treated as the maximum-bound case and a
well-defined integer is returned. -/
theorem getPoissonDelay_zeroDraw (targetMean : ℝ) (h : 0 ≤ targetMean) :
    GetPoissonDelay targetMean 0 = rtrunc (10 * targetMean) :=
  gp_zeroDraw_eq targetMean h

/-- Witness for C8: at target mean 1000 the zero draw returns the
truncated maximum bound. -/
theorem getPoissonDelay_zeroDraw_witness :
    (0:ℝ) ≤ 1000 ∧ GetPoissonDelay 1000 0 = rtrunc (10 * 1000) :=
  ⟨by norm_num, getPoissonDelay_zeroDraw 1000 (by norm_num)⟩

/-- The delay at target mean 1000 for the draw 19/20 is the lower clamp
bound 100: the raw exponential sample is strictly between 0 and 100. -/
theorem gp_streamB_eq : GetPoissonDelay 1000 (19/20) = 100 := by
  unfold GetPoissonDelay clampTrunc
  rw [if_neg (by norm_num)]
  have hlogneg : Real.log (19/20) < 0 := Real.log_neg (by norm_num) (by norm_num)
  have hexp : Real.exp (-(1/10)) < 19/20 := by
    have h1 : (11/10 : ℝ) ≤ Real.exp (1/10) := by
      have h2 := Real.add_one_le_exp (1/10 : ℝ)
      linarith
    rw [Real.exp_neg]
    have h4 : (Real.exp (1/10))⁻¹ ≤ (11/10 : ℝ)⁻¹ :=
      inv_anti₀ (by norm_num) h1
    calc (Real.exp (1/10))⁻¹ ≤ (11/10:ℝ)⁻¹ := h4
      _ < 19/20 := by norm_num
  have hlog2 : -(1/10 : ℝ) < Real.log (19/20) := by
    have h5 : Real.log (Real.exp (-(1/10))) < Real.log (19/20) :=
      Real.log_lt_log (Real.exp_pos _) hexp
    rwa [Real.log_exp] at h5
  have hmax : max (-Real.log (19/20) * 1000) ((0.1:ℝ) * 1000) = (0.1:ℝ) * 1000 := by
    apply max_eq_right
    nlinarith
  rw [hmax]
  have hmin : min ((0.1:ℝ) * 1000) (10 * 1000) = (0.1:ℝ) * 1000 := min_eq_left (by norm_num)
  rw [hmin]
  have hcast : (0.1:ℝ) * 1000 = ((100:ℤ):ℝ) := by norm_num
  rw [hcast, rtrunc_intCast]

/-- C10: the delay generator's output depends only on its argument and
the state of the shared random source — runs over pointwise-equal source
states produce identical output sequences — and there exist two source
states (two seedings) whose first ten draws at target mean 1000 differ
in at least one position. -/
theorem getPoissonDelay_seedDeterminism :
    (∀ s1 s2 : ℕ → ℝ, ∀ targetMean : ℝ, (∀ n, s1 n = s2 n) →
      ∀ n, delaySeq s1 targetMean n = delaySeq s2 targetMean n) ∧
    (∃ i, i < 10 ∧ delaySeq seedStreamA 1000 i ≠ delaySeq seedStreamB 1000 i) := by
  constructor
  · intro s1 s2 m hs n
    unfold delaySeq
    rw [hs n]
  · refine ⟨0, by norm_num, ?_⟩
    have hA : delaySeq seedStreamA 1000 0 = 10000 := by
      unfold delaySeq seedStreamA
      rw [gp_zeroDraw_eq 1000 (by norm_num)]
      have hcast : (10:ℝ) * 1000 = ((10000:ℤ):ℝ) := by norm_num
      rw [hcast, rtrunc_intCast]
    have hB : delaySeq seedStreamB 1000 0 = 100 := by
      unfold delaySeq seedStreamB
      exact gp_streamB_eq
    rw [hA, hB]
    decide

/-- Witness for C10: the determinism half applied to one concrete source
state against itself. -/
theorem getPoissonDelay_seedDeterminism_witness :
    delaySeq seedStreamA 1000 0 = delaySeq seedStreamA 1000 0 :=
  getPoissonDelay_seedDeterminism.1 seedStreamA seedStreamA 1000 (fun _ => rfl) 0

/-- Decoding one per-coin record with a `usd` and a `usd_24h_change`
field yields exactly that price and change. -/
theorem decodePriceData_mk (p c : ℚ) :
    decodePriceData (Json.obj [("usd", Json.num p), ("usd_24h_change", Json.num c)]) =
      some (PriceData.mk p c) := by
  simp [decodePriceData, Json.getField, List.lookup]

/-- C9: decoding an upstream response maps each top-level JSON key (a
coin id) to a record whose `usd` field becomes the price and whose
`usd_24h_change` field becomes the 24-hour change; in particular the
singleton body quoting bitcoin at 50000 with change 2.5 decodes to the
entry for bitcoin with that price and change. -/
theorem coinGeckoResponse_decode :
    (∀ ps : List (String × (ℚ × ℚ)),
      decodeCoinGeckoResponse (Json.obj (ps.map (fun kv =>
        (kv.1, Json.obj [("usd", Json.num kv.2.1),
          ("usd_24h_change", Json.num kv.2.2)])))) =
      some (ps.map (fun kv => (kv.1, PriceData.mk kv.2.1 kv.2.2)))) ∧
    decodeCoinGeckoResponse (Json.obj [("bitcoin",
      Json.obj [("usd", Json.num 50000), ("usd_24h_change", Json.num 2.5)])]) =
      some [("bitcoin", PriceData.mk 50000 2.5)] := by
  have hgen : ∀ ps : List (String × (ℚ × ℚ)),
      decodeCoinGeckoResponse (Json.obj (ps.map (fun kv =>
        (kv.1, Json.obj [("usd", Json.num kv.2.1),
          ("usd_24h_change", Json.num kv.2.2)])))) =
      some (ps.map (fun kv => (kv.1, PriceData.mk kv.2.1 kv.2.2))) := by
    intro ps
    induction ps with
    | nil => rfl
    | cons kv t ih =>
      simp only [List.map_cons, decodeCoinGeckoResponse, List.mapM_cons,
        decodePriceData_mk, Option.map_some'] at *
      rw [ih]
      rfl
  refine ⟨hgen, ?_⟩
  have h := hgen [("bitcoin", (50000, 2.5))]
  simpa using h
